import Mathlib

/-!
Verification of the morphism core: the per-media authenticated storage
operations of the composer crate (src/composer/src/tac.rs and
src/composer/src/store.rs) and the VRF challenge-index derivation of the
prover crate (src/prover/src/lib.rs), shallowly embedded over byte strings
modelled as lists of natural numbers.
-/

set_option autoImplicit false

namespace Morphism

/-- Big-endian byte encoding of a `u64` (`u64::to_be_bytes` in the source):
eight bytes, most significant first. -/
def u64BeBytes (n : Nat) : List Nat :=
  [n / 2 ^ 56 % 256, n / 2 ^ 48 % 256, n / 2 ^ 40 % 256, n / 2 ^ 32 % 256,
   n / 2 ^ 24 % 256, n / 2 ^ 16 % 256, n / 2 ^ 8 % 256, n % 256]

/-- Reading of four bytes as a big-endian `u32` (`u32::from_be_bytes`). -/
def beU32 (b0 b1 b2 b3 : Nat) : Nat := ((b0 * 256 + b1) * 256 + b2) * 256 + b3

/-! ## Prover (src/prover/src/lib.rs) -/

/-- The constant `MAX_FRAMES` (src/prover/src/lib.rs:8). -/
def MAX_FRAMES : Nat := 1200

/-- Challenge-index derivation from the VRF output hash
(src/prover/src/lib.rs:41-45): the three big-endian `u32` words of the hash
at byte offsets 0, 4 and 8, each reduced modulo `MAX_FRAMES`. The source
hash is a `[u8; 32]`, so the short-input fallback cannot be reached; the
model returns `[]` there. -/
def deriveIndices : List Nat → List Nat
  | b0 :: b1 :: b2 :: b3 :: b4 :: b5 :: b6 :: b7 :: b8 :: b9 :: b10 :: b11 :: _ =>
    [beU32 b0 b1 b2 b3 % MAX_FRAMES,
     beU32 b4 b5 b6 b7 % MAX_FRAMES,
     beU32 b8 b9 b10 b11 % MAX_FRAMES]
  | _ => []

/-- Result bundle of the prover (src/prover/src/lib.rs:11-15). -/
structure FrameIndexProof where
  frame_indices : List Nat
  proof : List Nat
  hash : List Nat
deriving DecidableEq

/-- Model of `prove_from_witness` (src/prover/src/lib.rs:36-51). The VRF
prove step (`vrf::prove`, an external primitive to this development) is an
abstract parameter returning `(output_hash, proof)`; hex parsing of the
inputs is boundary formatting (spec section 9) and the model takes byte
lists directly. -/
def prove_from_witness (vrf_prove : List Nat → List Nat → List Nat × List Nat)
    (seed sk : List Nat) : FrameIndexProof :=
  let hp := vrf_prove seed sk
  { frame_indices := deriveIndices hp.1, proof := hp.2, hash := hp.1 }

/-! ## Persistent store model (src/composer/src/store.rs)

A `sled::Tree` is modelled as an association list from byte-string keys to
byte-string values, together with a failure flag: `fail = some msg` means
every operation on the underlying engine fails with that I/O error message
(modelling a `sled::Error`), `fail = none` means the engine is healthy. -/

/-- Lookup in an association list of byte-string records. -/
def assocGet : List (List Nat × List Nat) → List Nat → Option (List Nat)
  | [], _ => none
  | (k, v) :: rest, key => if k = key then some v else assocGet rest key

/-- Insertion (overwriting any previous binding) in an association list. -/
def assocPut : List (List Nat × List Nat) → List Nat → List Nat →
    List (List Nat × List Nat)
  | [], key, v => [(key, v)]
  | (k, w) :: rest, key, v =>
    if k = key then (key, v) :: rest else (k, w) :: assocPut rest key v

/-- State of one per-media `sled::Tree` namespace. -/
structure SledTree where
  data : List (List Nat × List Nat)
  fail : Option String
deriving DecidableEq

/-- Model of `sled::Tree::get`. -/
def sledGet (t : SledTree) (k : List Nat) : Except String (Option (List Nat)) :=
  match t.fail with
  | some e => .error e
  | none => .ok (assocGet t.data k)

/-- Model of `sled::Tree::insert`. -/
def sledInsert (t : SledTree) (k v : List Nat) : Except String SledTree :=
  match t.fail with
  | some e => .error e
  | none => .ok ⟨assocPut t.data k v, t.fail⟩

/-- Model of `sled::Tree::clear`. -/
def sledClear (t : SledTree) : Except String SledTree :=
  match t.fail with
  | some e => .error e
  | none => .ok ⟨[], t.fail⟩

/-- Codec-layer error (`ffmpeg::Error`), as far as the core constructs it. -/
inductive FfmpegError where
  | streamNotFound
  | other (code : Nat)
deriving DecidableEq

/-- Error type of the xmt sparse-merkle-tree storage traits; the store
adapter only ever constructs the `Store` variant carrying a message. -/
inductive XmtError where
  | store (msg : String)
deriving DecidableEq

/-- Stringification of an xmt error (`e.to_string()` in the source),
modelled as returning the carried message. -/
def XmtError.message : XmtError → String
  | .store m => m

/-- The error enum `ComposerError` (src/composer/src/lib.rs:11-30).
Payloads of the wrapped lower-level kinds are carried so that verbatim
propagation is observable. -/
inductive ComposerError where
  | media (e : FfmpegError)
  | merkleTree (e : XmtError)
  | store (e : String)
  | serde (e : String)
  | file (e : Nat)
  | mediaExists
  | albumExists
  | albumNotFound
  | resourceNotFound
deriving DecidableEq

/-- Outcome of an `Album` operation: a result or an error together with the
persisted state after the call, or a process panic (a Rust `expect`), which
also records the state the store was left in. -/
inductive Out (α : Type) where
  | ok (a : α) (t : SledTree)
  | err (e : ComposerError) (t : SledTree)
  | panicked (t : SledTree)
deriving DecidableEq

/-- The persisted state an outcome left behind. -/
def Out.state {α : Type} : Out α → SledTree
  | .ok _ t => t
  | .err _ t => t
  | .panicked t => t

/-- The reserved root key `b"root"` (src/composer/src/store.rs:70,75), as
ASCII bytes. -/
def rootKey : List Nat := [114, 111, 111, 116]

/-- The function `SledStore::leaf_key` (store.rs:86-89): bincode of the pair
`(b"leaf", key)`. bincode 1.x writes fixed-size byte arrays as their raw
bytes with no length header, so the encoding is the four ASCII tag bytes of
"leaf" followed by the 32 key bytes. -/
def leaf_key (key : List Nat) : List Nat := [108, 101, 97, 102] ++ key

/-- The struct `BranchKey` of the xmt crate: a height (`u8`) and a 32-byte
node key. -/
structure BranchKey where
  height : Nat
  node_key : List Nat
deriving DecidableEq

/-- The function `SledStore::branch_key` (store.rs:91-95): bincode of
`(b"bran", height, node_key)`: the four ASCII tag bytes of "bran", one byte
of `height` (a `u8`), then the 32 key bytes. -/
def branch_key (key : BranchKey) : List Nat :=
  [98, 114, 97, 110] ++ [key.height] ++ key.node_key

/-- The type `MergeValue` of the xmt crate: a branch child is a concrete
32-byte node hash, or a compressed merge-with-zero descriptor. -/
inductive MergeValue where
  | value (v : List Nat)
  | mergeWithZero (base_node zero_bits : List Nat) (zero_count : Nat)
deriving DecidableEq

/-- The struct `BranchNode` of the xmt crate: a pair of merge values. -/
structure BranchNode where
  left : MergeValue
  right : MergeValue
deriving DecidableEq

/-- The enum `SerializableMergeValue` (store.rs:16-24). -/
inductive SerializableMergeValue where
  | value (v : List Nat)
  | mergeWithZero (base_node zero_bits : List Nat) (zero_count : Nat)
deriving DecidableEq

/-- The impl `From<&MergeValue> for SerializableMergeValue`
(store.rs:26-41). -/
def SerializableMergeValue.ofMerge : MergeValue → SerializableMergeValue
  | .value v => .value v
  | .mergeWithZero b z c => .mergeWithZero b z c

/-- The impl `Into<MergeValue> for SerializableMergeValue`
(store.rs:43-58). -/
def SerializableMergeValue.intoMerge : SerializableMergeValue → MergeValue
  | .value v => .value v
  | .mergeWithZero b z c => .mergeWithZero b z c

/-- bincode 1.x encoding of one `SerializableMergeValue`: the enum variant
index as a 4-byte little-endian `u32`, then the fields in order (fixed-size
byte arrays as raw bytes, a `u8` as one byte). -/
def smv_bytes : SerializableMergeValue → List Nat
  | .value v => [0, 0, 0, 0] ++ v
  | .mergeWithZero b z c => [1, 0, 0, 0] ++ b ++ z ++ [c]

/-- bincode 1.x decoding of one `SerializableMergeValue` from a byte
stream; returns the decoded value and the unconsumed rest of the stream. -/
def parse_smv : List Nat → Except String (SerializableMergeValue × List Nat)
  | 0 :: 0 :: 0 :: 0 :: rest =>
    if 32 ≤ rest.length then .ok (.value (rest.take 32), rest.drop 32)
    else .error "unexpected end of input"
  | 1 :: 0 :: 0 :: 0 :: rest =>
    match rest.drop 64 with
    | c :: _ =>
      .ok (.mergeWithZero (rest.take 32) ((rest.drop 32).take 32) c, rest.drop 65)
    | [] => .error "unexpected end of input"
  | _ => .error "invalid variant tag"

/-- The function `SledStore::serialize_branch` (store.rs:97-102): convert
each side into a `SerializableMergeValue` and bincode the pair (a tuple is
the concatenation of its parts). -/
def serialize_branch (branch : BranchNode) : List Nat :=
  smv_bytes (.ofMerge branch.left) ++ smv_bytes (.ofMerge branch.right)

/-- The function `SledStore::deserialize_branch` (store.rs:104-111): decode
a pair of `SerializableMergeValue`, convert back into a `BranchNode`;
bincode errors are wrapped as the xmt `Error::Store` with the message. -/
def deserialize_branch (v : List Nat) : Except XmtError BranchNode :=
  match parse_smv v with
  | .error e => .error (.store e)
  | .ok (l, rest) =>
    match parse_smv rest with
    | .error e => .error (.store e)
    | .ok (r, _) => .ok ⟨l.intoMerge, r.intoMerge⟩

/-- The function `SledStore::deserialize_val` (store.rs:115-120): a value
record must be exactly 32 bytes, otherwise a decode error. -/
def deserialize_val (v : List Nat) : Except XmtError (List Nat) :=
  if v.length = 32 then .ok v else .error (.store "invalid value")

/-- The trait method `StoreReadOps::get_branch` (store.rs:124-132); the
`map_err` re-wraps a deserialization failure as `Error::Store` of its
message. -/
def get_branch (t : SledTree) (key : BranchKey) :
    Except XmtError (Option BranchNode) :=
  match sledGet t (branch_key key) with
  | .error e => .error (.store e)
  | .ok none => .ok none
  | .ok (some v) =>
    match deserialize_branch v with
    | .error e => .error (.store e.message)
    | .ok b => .ok (some b)

/-- The trait method `StoreReadOps::get_leaf` (store.rs:134-142). -/
def get_leaf (t : SledTree) (key : List Nat) :
    Except XmtError (Option (List Nat)) :=
  match sledGet t (leaf_key key) with
  | .error e => .error (.store e)
  | .ok none => .ok none
  | .ok (some v) =>
    match deserialize_val v with
    | .error e => .error (.store e.message)
    | .ok w => .ok (some w)

/-- The trait method `StoreWriteOps::insert_branch` (store.rs:153-158). -/
def insert_branch (t : SledTree) (key : BranchKey) (branch : BranchNode) :
    Except XmtError SledTree :=
  match sledInsert t (branch_key key) (serialize_branch branch) with
  | .error e => .error (.store e)
  | .ok t' => .ok t'

/-- The trait method `StoreWriteOps::insert_leaf` (store.rs:160-165);
`serialize_val` of a 32-byte value is its raw bytes. -/
def insert_leaf (t : SledTree) (key leaf : List Nat) :
    Except XmtError SledTree :=
  match sledInsert t (leaf_key key) leaf with
  | .error e => .error (.store e)
  | .ok t' => .ok t'

/-- The function `SledStore::save_root` (store.rs:68-72). -/
def save_root (t : SledTree) (root : List Nat) : Out Unit :=
  match sledInsert t rootKey root with
  | .error e => .err (.store e) t
  | .ok t' => .ok () t'

/-- The function `SledStore::read_root` (store.rs:74-79). A present record
whose value is not exactly 32 bytes hits `expect("invalid root value")`:
the process panics rather than returning a decode error. -/
def read_root (t : SledTree) : Out (Option (List Nat)) :=
  match sledGet t rootKey with
  | .error e => .err (.store e) t
  | .ok none => .ok none t
  | .ok (some v) => if v.length = 32 then .ok (some v) t else .panicked t

/-- The function `SledStore::clear` (store.rs:81-84). -/
def clear (t : SledTree) : Except ComposerError SledTree :=
  match sledClear t with
  | .error e => .error (.store e)
  | .ok t' => .ok t'

/-! ## Album operations (src/composer/src/tac.rs)

The per-media `SledStore` selected by `SledStore::open(&self.db, id)` is
the `SledTree` state each operation receives; `sled::Db::open_tree` creates
the (empty) namespace when absent and writes no records, so opening is
modelled as receiving the per-media state. The external primitives — the
blake2b content digest `Album::digest` and the xmt sparse-merkle-tree
operations (`update_all`, and `merkle_proof` followed by `compile`) — are
abstract parameters: `update_all` may read and write the store, so it
receives and returns a state, while `merkle_proof`/`compile` go through the
read-only store trait over `&self` and are a pure function of the root, the
state and the requested keys. -/

/-- The all-zero 32-byte hash: `H256::default()`. -/
def zeroRoot : List Nat := List.replicate 32 0

/-- Position-to-key mapping used when building the tree in
`Album::save_frames` (tac.rs:99-102): the node hash of the 8-byte
big-endian encoding of the frame index. -/
def build_key (digest : List Nat → List Nat) (i : Nat) : List Nat :=
  digest (u64BeBytes i)

/-- Position-to-key mapping used in `Album::get_proof_of_frames`
(tac.rs:55-58) for a requested frame position. -/
def proof_key (digest : List Nat → List Nat) (f : Nat) : List Nat :=
  digest (u64BeBytes f)

/-- The method `Album::find_episode` (tac.rs:43-47). The combinator chain
`read_root().ok()??` turns both a store error and an absent root into
`None`; the found tree value is represented by its root. -/
def find_episode (t : SledTree) : Out (Option (List Nat)) :=
  match read_root t with
  | .panicked t' => .panicked t'
  | .err _ t' => .ok none t'
  | .ok none t' => .ok none t'
  | .ok (some r) t' => .ok (some r) t'

/-- The method `Album::get_proof_of_frames` (tac.rs:49-66). The parameter
`mk_proof` abstracts `SparseMerkleTree::merkle_proof` followed by
`MerkleProof::compile`; its errors are wrapped as the merkle-tree kind. -/
def get_proof_of_frames
    (mk_proof : List Nat → SledTree → List (List Nat) → Except XmtError (List Nat))
    (digest : List Nat → List Nat) (t : SledTree) (frames : List Nat) :
    Out (List Nat) :=
  match read_root t with
  | .panicked t' => .panicked t'
  | .err e t' => .err e t'
  | .ok none t' => .err .resourceNotFound t'
  | .ok (some root) t' =>
    match mk_proof root t' (frames.map (proof_key digest)) with
    | .error e => .err (.merkleTree e) t'
    | .ok proof => .ok proof t'

/-- The method `Album::new_empty_tree` (tac.rs:83-93). The value returned
on success is the in-memory root of the freshly created tree
(`Default::default()`, the zero root). -/
def new_empty_tree (force : Bool) (t : SledTree) : Out (List Nat) :=
  match read_root t with
  | .panicked t' => .panicked t'
  | .err e t' => .err e t'
  | .ok none t' => .ok zeroRoot t'
  | .ok (some _) t' =>
    if force then
      match clear t' with
      | .error e => .err e t'
      | .ok t'' => .ok zeroRoot t''
    else .err .mediaExists t'

/-- The method `Album::dump_frames` (tac.rs:113-149). The ffmpeg
demux/decode loop is the abstract parameter `decoded`: either a decoder
error or the list of raw first-plane frame buffers in presentation order;
the callback applied to each buffer is the content digest (tac.rs:79). The
emptiness check is source logic: zero collected frames fail with the codec
kind carrying `StreamNotFound`. -/
def dump_frames (digest : List Nat → List Nat)
    (decoded : Except FfmpegError (List (List Nat))) :
    Except ComposerError (List (List Nat)) :=
  match decoded with
  | .error e => .error (.media e)
  | .ok datas =>
    let frames := datas.map digest
    if frames.isEmpty then .error (.media .streamNotFound)
    else .ok frames

/-- The method `Album::save_frames` (tac.rs:95-111): build the leaf set
keyed by `build_key` of each frame index, run the batch `update_all`, then
persist the resulting root with `save_root`. -/
def save_frames (digest : List Nat → List Nat)
    (update_all : List (List Nat × List Nat) → SledTree →
      Except XmtError (List Nat) × SledTree)
    (frames : List (List Nat)) (t : SledTree) : Out (List Nat) :=
  let v := frames.enum.map (fun p => (build_key digest p.1, p.2))
  match update_all v t with
  | (.error e, t') => .err (.merkleTree e) t'
  | (.ok root, t') =>
    match save_root t' root with
    | .ok _ t'' => .ok root t''
    | .err e t'' => .err e t''
    | .panicked t'' => .panicked t''

/-- The method `Album::append` (tac.rs:68-81). `ffmpeg::init` and the
sha256 content identity of the media file are external and always succeed
in the model; the identity only selects the per-media state `t`. -/
def append (digest : List Nat → List Nat)
    (update_all : List (List Nat × List Nat) → SledTree →
      Except XmtError (List Nat) × SledTree)
    (decoded : Except FfmpegError (List (List Nat)))
    (overwrite : Bool) (t : SledTree) : Out (List Nat) :=
  match new_empty_tree overwrite t with
  | .panicked t' => .panicked t'
  | .err e t' => .err e t'
  | .ok _ t' =>
    match dump_frames digest decoded with
    | .error e => .err e t'
    | .ok frames => save_frames digest update_all frames t'

/-! ## Concrete instantiations of the abstract primitives, for witnesses -/

/-- A concrete content digest instantiating the abstract hash parameter. -/
def constDigest : List Nat → List Nat := fun _ => zeroRoot

/-- A concrete merkle-proof compiler instantiating `mk_proof`. -/
def constProof : List Nat → SledTree → List (List Nat) → Except XmtError (List Nat) :=
  fun _ _ _ => .ok []

/-- A concrete batch updater instantiating `update_all`. -/
def constUpdate : List (List Nat × List Nat) → SledTree →
    Except XmtError (List Nat) × SledTree :=
  fun _ t => (.ok zeroRoot, t)

/-- A concrete VRF instantiating `vrf_prove`: output hash `0, 1, ..., 31`. -/
def constVrf : List Nat → List Nat → List Nat × List Nat :=
  fun _ _ => (List.range 32, [])

/-! ## Theorems -/

/-- C3: the position-to-key mapping used when building the tree in
`save_frames` and the mapping applied to the requested positions in
`get_proof_of_frames` are the same function of the position. -/
theorem key_scheme_agreement (digest : List Nat → List Nat) :
    build_key digest = proof_key digest := rfl

/-- Shape of the derived challenge list on a 32-byte hash. -/
theorem deriveIndices_eq (hash : List Nat) (hlen : hash.length = 32) :
    deriveIndices hash =
      [beU32 (hash.getD 0 0) (hash.getD 1 0) (hash.getD 2 0) (hash.getD 3 0)
        % MAX_FRAMES,
       beU32 (hash.getD 4 0) (hash.getD 5 0) (hash.getD 6 0) (hash.getD 7 0)
        % MAX_FRAMES,
       beU32 (hash.getD 8 0) (hash.getD 9 0) (hash.getD 10 0) (hash.getD 11 0)
        % MAX_FRAMES] := by
  rcases hash with _ | ⟨b0, hash⟩; · simp at hlen
  rcases hash with _ | ⟨b1, hash⟩; · simp at hlen
  rcases hash with _ | ⟨b2, hash⟩; · simp at hlen
  rcases hash with _ | ⟨b3, hash⟩; · simp at hlen
  rcases hash with _ | ⟨b4, hash⟩; · simp at hlen
  rcases hash with _ | ⟨b5, hash⟩; · simp at hlen
  rcases hash with _ | ⟨b6, hash⟩; · simp at hlen
  rcases hash with _ | ⟨b7, hash⟩; · simp at hlen
  rcases hash with _ | ⟨b8, hash⟩; · simp at hlen
  rcases hash with _ | ⟨b9, hash⟩; · simp at hlen
  rcases hash with _ | ⟨b10, hash⟩; · simp at hlen
  rcases hash with _ | ⟨b11, hash⟩; · simp at hlen
  rfl

/-- C4: `prove_from_witness` derives exactly three challenge positions from
the 32-byte VRF output hash: position `i` is the big-endian `u32` read from
bytes `[4*i, 4*i+4)` reduced modulo `MAX_FRAMES` (1200); every derived
position lies in `[0, 1200)`, derivation order is kept, and duplicates are
not removed (the result is exactly the three-element list, in order). -/
theorem challenge_derivation
    (vrf_prove : List Nat → List Nat → List Nat × List Nat)
    (seed sk : List Nat) (hlen : (vrf_prove seed sk).1.length = 32) :
    (prove_from_witness vrf_prove seed sk).frame_indices
        = deriveIndices (vrf_prove seed sk).1
    ∧ deriveIndices (vrf_prove seed sk).1 =
        [beU32 ((vrf_prove seed sk).1.getD 0 0) ((vrf_prove seed sk).1.getD 1 0)
           ((vrf_prove seed sk).1.getD 2 0) ((vrf_prove seed sk).1.getD 3 0)
          % MAX_FRAMES,
         beU32 ((vrf_prove seed sk).1.getD 4 0) ((vrf_prove seed sk).1.getD 5 0)
           ((vrf_prove seed sk).1.getD 6 0) ((vrf_prove seed sk).1.getD 7 0)
          % MAX_FRAMES,
         beU32 ((vrf_prove seed sk).1.getD 8 0) ((vrf_prove seed sk).1.getD 9 0)
           ((vrf_prove seed sk).1.getD 10 0) ((vrf_prove seed sk).1.getD 11 0)
          % MAX_FRAMES]
    ∧ (deriveIndices (vrf_prove seed sk).1).length = 3
    ∧ ∀ i ∈ deriveIndices (vrf_prove seed sk).1, i < MAX_FRAMES := by
  refine ⟨rfl, deriveIndices_eq _ hlen, ?_, ?_⟩
  · rw [deriveIndices_eq _ hlen]
    rfl
  · rw [deriveIndices_eq _ hlen]
    intro i hi
    simp only [List.mem_cons, List.not_mem_nil, or_false] at hi
    have h1200 : 0 < MAX_FRAMES := by decide
    rcases hi with rfl | rfl | rfl <;> exact Nat.mod_lt _ h1200

/-- Witness for C4 at the concrete VRF returning the hash `0, 1, ..., 31`. -/
theorem challenge_derivation_w :
    (prove_from_witness constVrf [] []).frame_indices
        = deriveIndices (constVrf [] []).1
    ∧ deriveIndices (constVrf [] []).1 =
        [beU32 ((constVrf [] []).1.getD 0 0) ((constVrf [] []).1.getD 1 0)
           ((constVrf [] []).1.getD 2 0) ((constVrf [] []).1.getD 3 0)
          % MAX_FRAMES,
         beU32 ((constVrf [] []).1.getD 4 0) ((constVrf [] []).1.getD 5 0)
           ((constVrf [] []).1.getD 6 0) ((constVrf [] []).1.getD 7 0)
          % MAX_FRAMES,
         beU32 ((constVrf [] []).1.getD 8 0) ((constVrf [] []).1.getD 9 0)
           ((constVrf [] []).1.getD 10 0) ((constVrf [] []).1.getD 11 0)
          % MAX_FRAMES]
    ∧ (deriveIndices (constVrf [] []).1).length = 3 :=
  ⟨(challenge_derivation constVrf [] [] (by decide)).1,
   (challenge_derivation constVrf [] [] (by decide)).2.1,
   (challenge_derivation constVrf [] [] (by decide)).2.2.1⟩

/-- C6: encoded store keys never collide across record kinds — a leaf
record key, a branch record key and the reserved root key are pairwise
distinct for all inputs — and the leaf-key and branch-key encodings are
each injective in their inputs. -/
theorem key_namespacing :
    (∀ (k : List Nat) (bk : BranchKey), leaf_key k ≠ branch_key bk)
    ∧ (∀ k : List Nat, leaf_key k ≠ rootKey)
    ∧ (∀ bk : BranchKey, branch_key bk ≠ rootKey)
    ∧ Function.Injective leaf_key
    ∧ Function.Injective branch_key := by
  refine ⟨?_, ?_, ?_, ?_, ?_⟩
  · intro k bk h
    simp [leaf_key, branch_key] at h
  · intro k h
    simp [leaf_key, rootKey] at h
  · intro bk h
    simp [branch_key, rootKey] at h
  · intro a b h
    simpa [leaf_key] using h
  · intro a b h
    rcases a with ⟨ha, ka⟩
    rcases b with ⟨hb, kb⟩
    simp only [branch_key, List.cons_append, List.nil_append, List.cons.injEq,
      true_and] at h
    simp [h.1, h.2]

/-- C10: on a healthy store, `read_root` returns `Ok(None)` when the root
record is absent, returns `Ok(Some root)` without panicking when the record
is exactly 32 bytes, and panics (process abort through `expect`) whenever a
record is present with any other length, instead of returning a decode
error. -/
theorem read_root_behavior (t : SledTree) (v : List Nat)
    (hfail : t.fail = none) :
    (assocGet t.data rootKey = none → read_root t = .ok none t)
    ∧ (assocGet t.data rootKey = some v → v.length = 32 →
        read_root t = .ok (some v) t)
    ∧ (assocGet t.data rootKey = some v → v.length ≠ 32 →
        read_root t = .panicked t) := by
  refine ⟨?_, ?_, ?_⟩
  · intro h
    simp [read_root, sledGet, hfail, h]
  · intro h hl
    simp [read_root, sledGet, hfail, h, hl]
  · intro h hl
    simp [read_root, sledGet, hfail, h, hl]

/-- Witness for C10 at a store holding a malformed (1-byte) root record:
reading the root panics. -/
theorem read_root_behavior_w :
    read_root ⟨[(rootKey, [0])], none⟩ = .panicked ⟨[(rootKey, [0])], none⟩ :=
  (read_root_behavior ⟨[(rootKey, [0])], none⟩ [0] rfl).2.2 (by decide)
    (by decide)

/-- C1: calling `append` with `overwrite = false` on a media identity whose
store already holds a persisted (32-byte) root fails with the "media
already appended" kind, and the persisted state for that media identity —
root, branch nodes and leaves — is exactly what it was before the call. -/
theorem append_guard (digest : List Nat → List Nat)
    (update_all : List (List Nat × List Nat) → SledTree →
      Except XmtError (List Nat) × SledTree)
    (decoded : Except FfmpegError (List (List Nat)))
    (t : SledTree) (r : List Nat)
    (hfail : t.fail = none) (hroot : assocGet t.data rootKey = some r)
    (hlen : r.length = 32) :
    append digest update_all decoded false t = .err .mediaExists t := by
  simp [append, new_empty_tree, read_root, sledGet, hfail, hroot, hlen]

/-- Witness for C1 at a concrete store already holding the zero root. -/
theorem append_guard_w :
    append constDigest constUpdate (Except.ok []) false
        ⟨[(rootKey, zeroRoot)], none⟩
      = .err .mediaExists ⟨[(rootKey, zeroRoot)], none⟩ :=
  append_guard constDigest constUpdate (Except.ok [])
    ⟨[(rootKey, zeroRoot)], none⟩ zeroRoot rfl (by decide) (by decide)

/-- C2: `get_proof_of_frames` fails with the "resource not found" kind
exactly when no root is persisted for the media identity, and with no root
persisted it never returns proof bytes; a present root — the all-zero one
included — is an existing tree, never reported as "resource not found". -/
theorem absence_correctness
    (mk_proof : List Nat → SledTree → List (List Nat) → Except XmtError (List Nat))
    (digest : List Nat → List Nat) (t : SledTree) (frames : List Nat)
    (hfail : t.fail = none) :
    (get_proof_of_frames mk_proof digest t frames = .err .resourceNotFound t
        ↔ assocGet t.data rootKey = none)
    ∧ (assocGet t.data rootKey = none →
        ∀ (p : List Nat) (t' : SledTree),
          get_proof_of_frames mk_proof digest t frames ≠ .ok p t') := by
  rcases hg : assocGet t.data rootKey with _ | r
  · refine ⟨by simp [get_proof_of_frames, read_root, sledGet, hfail, hg], ?_⟩
    intro _ p t'
    simp [get_proof_of_frames, read_root, sledGet, hfail, hg]
  · refine ⟨⟨fun h => ?_, fun h => by simp [hg] at h⟩, fun h => by simp [hg] at h⟩
    by_cases hl : r.length = 32
    · rcases hm : mk_proof r t (frames.map (proof_key digest)) with e | pp <;>
        simp [get_proof_of_frames, read_root, sledGet, hfail, hg, hl, hm] at h
    · simp [get_proof_of_frames, read_root, sledGet, hfail, hg, hl] at h

/-- Witness for C2 at an empty store: the proof request fails with the
"resource not found" kind. -/
theorem absence_correctness_w :
    get_proof_of_frames constProof constDigest ⟨[], none⟩ [0, 5, 9]
      = .err .resourceNotFound ⟨[], none⟩ :=
  (absence_correctness constProof constDigest ⟨[], none⟩ [0, 5, 9] rfl).1.mpr rfl

/-- C5 counterexample: it is not the case that every operation propagates a
structural store error verbatim: at a store whose underlying engine fails,
`read_root` surfaces the store error, yet `find_episode` — via
`.ok()?` — converts it into `None`, an absence result. -/
theorem find_episode_swallows_error :
    ¬ (∀ t : SledTree,
        (∃ (e : ComposerError) (t' : SledTree), read_root t = .err e t') →
        ∀ t' : SledTree, find_episode t ≠ .ok none t') := by
  intro hclaim
  exact hclaim ⟨[(rootKey, zeroRoot)], some "sled io error"⟩
    ⟨.store "sled io error", ⟨[(rootKey, zeroRoot)], some "sled io error"⟩, rfl⟩
    ⟨[(rootKey, zeroRoot)], some "sled io error"⟩ rfl

/-- C5 (amended): tree/store structural errors are propagated verbatim by
`get_proof_of_frames`, `append`, `dump_frames`, `get_branch` and
`get_leaf`; the one exception is `find_episode`, whose `Option` return
type makes it convert structural errors into `None` (absence). -/
theorem structural_error_propagation
    (mk_proof : List Nat → SledTree → List (List Nat) → Except XmtError (List Nat))
    (digest : List Nat → List Nat)
    (update_all : List (List Nat × List Nat) → SledTree →
      Except XmtError (List Nat) × SledTree)
    (decoded : Except FfmpegError (List (List Nat)))
    (ow : Bool) (t : SledTree) (e : String) (frames : List Nat)
    (hfail : t.fail = some e) :
    get_proof_of_frames mk_proof digest t frames = .err (.store e) t
    ∧ append digest update_all decoded ow t = .err (.store e) t
    ∧ (∀ fe : FfmpegError,
        dump_frames digest (Except.error fe) = .error (.media fe))
    ∧ (∀ bk : BranchKey, get_branch t bk = .error (.store e))
    ∧ (∀ k : List Nat, get_leaf t k = .error (.store e))
    ∧ find_episode t = .ok none t := by
  refine ⟨?_, ?_, ?_, ?_, ?_, ?_⟩ <;>
    simp [get_proof_of_frames, append, new_empty_tree, read_root, sledGet,
      hfail, dump_frames, get_branch, get_leaf, find_episode]

/-- Witness for the amended C5 at a store failing with message "io". -/
theorem structural_error_propagation_w :
    get_proof_of_frames constProof constDigest ⟨[], some "io"⟩ [0]
        = .err (.store "io") ⟨[], some "io"⟩
    ∧ append constDigest constUpdate (Except.ok [[1]]) false ⟨[], some "io"⟩
        = .err (.store "io") ⟨[], some "io"⟩
    ∧ dump_frames constDigest (Except.error .streamNotFound)
        = .error (.media .streamNotFound)
    ∧ get_branch ⟨[], some "io"⟩ ⟨0, zeroRoot⟩ = .error (.store "io")
    ∧ get_leaf ⟨[], some "io"⟩ zeroRoot = .error (.store "io")
    ∧ find_episode ⟨[], some "io"⟩ = .ok none ⟨[], some "io"⟩ := by
  have h := structural_error_propagation constProof constDigest constUpdate
    (Except.ok [[1]]) false ⟨[], some "io"⟩ "io" [0] rfl
  exact ⟨h.1, h.2.1, h.2.2.1 .streamNotFound, h.2.2.2.1 ⟨0, zeroRoot⟩,
    h.2.2.2.2.1 zeroRoot, h.2.2.2.2.2⟩

/-- Well-formedness of a merge value as it exists in the running program:
the hashes are 32 bytes and the zero count is a byte (`u8`). -/
def MergeValue.wf : MergeValue → Prop
  | .value v => v.length = 32
  | .mergeWithZero b z c => b.length = 32 ∧ z.length = 32 ∧ c < 256

/-- Well-formedness of a branch node: both children well-formed. -/
def BranchNode.wf (b : BranchNode) : Prop := b.left.wf ∧ b.right.wf

/-- Lookup after insertion in the association-list store. -/
theorem assocGet_assocPut (m : List (List Nat × List Nat)) (k v : List Nat) :
    assocGet (assocPut m k v) k = some v := by
  induction m with
  | nil => simp [assocPut, assocGet]
  | cons p rest ih =>
    rcases p with ⟨k', w⟩
    by_cases h : k' = k <;> simp [assocPut, assocGet, h, ih]

/-- The round-trip of the two conversion impls is the identity. -/
theorem intoMerge_ofMerge (m : MergeValue) :
    (SerializableMergeValue.ofMerge m).intoMerge = m := by
  cases m <;> rfl

/-- Decoding after encoding one merge value consumes exactly its bytes and
returns it, whatever follows in the stream. -/
theorem parse_smv_of_merge (m : MergeValue) (rest : List Nat)
    (hwf : m.wf) :
    parse_smv (smv_bytes (.ofMerge m) ++ rest) = .ok (.ofMerge m, rest) := by
  rcases m with v | ⟨b, z, c⟩
  · have hv : v.length = 32 := hwf
    have h1 : smv_bytes (.ofMerge (.value v)) ++ rest
        = 0 :: 0 :: 0 :: 0 :: (v ++ rest) := by
      simp [smv_bytes, SerializableMergeValue.ofMerge]
    have h32 : 32 ≤ v.length + rest.length := by omega
    rw [h1]
    simp [parse_smv, h32, List.take_left' hv, List.drop_left' hv,
      SerializableMergeValue.ofMerge]
  · obtain ⟨hb, hz, _⟩ := hwf
    have h1 : smv_bytes (.ofMerge (.mergeWithZero b z c)) ++ rest
        = 1 :: 0 :: 0 :: 0 :: (b ++ (z ++ (c :: rest))) := by
      simp [smv_bytes, SerializableMergeValue.ofMerge]
    have hd64 : (b ++ (z ++ (c :: rest))).drop 64 = c :: rest := by
      rw [← List.append_assoc]
      exact List.drop_left' (by simp [hb, hz])
    have hd32 : (b ++ (z ++ (c :: rest))).drop 32 = z ++ (c :: rest) :=
      List.drop_left' hb
    have hd65 : (b ++ (z ++ (c :: rest))).drop 65 = rest := by
      have hsplit : b ++ (z ++ (c :: rest)) = (b ++ (z ++ [c])) ++ rest := by
        simp
      rw [hsplit]
      exact List.drop_left' (by simp [hb, hz])
    rw [h1]
    simp [parse_smv, hd64, hd32, hd65, List.take_left' hb, List.take_left' hz,
      SerializableMergeValue.ofMerge]

/-- Decoding after encoding one merge value with nothing following. -/
theorem parse_smv_of_merge_nil (m : MergeValue) (hwf : m.wf) :
    parse_smv (smv_bytes (.ofMerge m)) = .ok (.ofMerge m, []) := by
  have h := parse_smv_of_merge m [] hwf
  simpa using h

/-- C7: branch-node encoding round-trips — `deserialize_branch` after
`serialize_branch` returns the identical node, for concrete-value children
and merge-with-zero children alike — and consequently `get_branch` after
`insert_branch` at the same key returns `Some` of the inserted node. -/
theorem branch_codec_roundtrip (b : BranchNode) (hb : b.wf) :
    deserialize_branch (serialize_branch b) = .ok b
    ∧ ∀ (t : SledTree) (bk : BranchKey), t.fail = none →
        ∃ t' : SledTree, insert_branch t bk b = .ok t'
          ∧ get_branch t' bk = .ok (some b) := by
  obtain ⟨hl, hr⟩ := hb
  have hpl : ∀ rest : List Nat,
      parse_smv (smv_bytes (.ofMerge b.left) ++ rest)
        = .ok (.ofMerge b.left, rest) :=
    fun rest => parse_smv_of_merge b.left rest hl
  have hser : deserialize_branch (serialize_branch b) = .ok b := by
    simp [deserialize_branch, serialize_branch, hpl,
      parse_smv_of_merge_nil b.right hr, intoMerge_ofMerge]
  refine ⟨hser, ?_⟩
  intro t bk hf
  refine ⟨⟨assocPut t.data (branch_key bk) (serialize_branch b), none⟩, ?_, ?_⟩
  · simp [insert_branch, sledInsert, hf]
  · simp [get_branch, sledGet, assocGet_assocPut, hser]

/-- Witness for C7 at a node with one concrete and one merge-with-zero
child, inserted at height 0 under the zero node key in an empty store. -/
theorem branch_codec_roundtrip_w :
    deserialize_branch (serialize_branch
        ⟨.value zeroRoot, .mergeWithZero zeroRoot zeroRoot 7⟩)
      = .ok ⟨.value zeroRoot, .mergeWithZero zeroRoot zeroRoot 7⟩
    ∧ ∃ t' : SledTree,
        insert_branch ⟨[], none⟩ ⟨0, zeroRoot⟩
            ⟨.value zeroRoot, .mergeWithZero zeroRoot zeroRoot 7⟩ = .ok t'
        ∧ get_branch t' ⟨0, zeroRoot⟩
            = .ok (some ⟨.value zeroRoot, .mergeWithZero zeroRoot zeroRoot 7⟩) := by
  have h := branch_codec_roundtrip
    ⟨.value zeroRoot, .mergeWithZero zeroRoot zeroRoot 7⟩
    ⟨(by decide : zeroRoot.length = 32), (by decide : zeroRoot.length = 32),
     (by decide : zeroRoot.length = 32), (by decide : (7 : Nat) < 256)⟩
  exact ⟨h.1, h.2 ⟨[], none⟩ ⟨0, zeroRoot⟩ rfl⟩

/-- The state a `read_root` call leaves behind is the state it received. -/
theorem read_root_state (t : SledTree) : (read_root t).state = t := by
  rcases hf : t.fail with _ | e
  · rcases hg : assocGet t.data rootKey with _ | v
    · simp [read_root, sledGet, hf, hg, Out.state]
    · by_cases hlen : v.length = 32 <;>
        simp [read_root, sledGet, hf, hg, hlen, Out.state]
  · simp [read_root, sledGet, hf, Out.state]

/-- C8: `find_episode` and `get_proof_of_frames` perform no writes — the
persisted state after either call is exactly the state before it — and a
second `get_proof_of_frames` call run from the state the first one left
behind returns the byte-identical result. -/
theorem idempotent_read
    (mk_proof : List Nat → SledTree → List (List Nat) → Except XmtError (List Nat))
    (digest : List Nat → List Nat) (t : SledTree) (frames : List Nat) :
    (find_episode t).state = t
    ∧ (get_proof_of_frames mk_proof digest t frames).state = t
    ∧ get_proof_of_frames mk_proof digest
        ((get_proof_of_frames mk_proof digest t frames).state) frames
      = get_proof_of_frames mk_proof digest t frames := by
  have hgp : ∀ u : SledTree,
      (get_proof_of_frames mk_proof digest u frames).state = u := by
    intro u
    have hs := read_root_state u
    rcases h : read_root u with ⟨a, t'⟩ | ⟨e, t'⟩ | t'
    · rw [h] at hs
      simp only [Out.state] at hs
      subst hs
      rcases a with _ | r
      · simp [get_proof_of_frames, h, Out.state]
      · rcases hm : mk_proof r t' (frames.map (proof_key digest)) with e | p <;>
          simp [get_proof_of_frames, h, hm, Out.state]
    · rw [h] at hs
      simp only [Out.state] at hs
      subst hs
      simp [get_proof_of_frames, h, Out.state]
    · rw [h] at hs
      simp only [Out.state] at hs
      subst hs
      simp [get_proof_of_frames, h, Out.state]
  have hfe : (find_episode t).state = t := by
    have hs := read_root_state t
    rcases h : read_root t with ⟨a, t'⟩ | ⟨e, t'⟩ | t'
    · rw [h] at hs
      simp only [Out.state] at hs
      subst hs
      rcases a with _ | r <;> simp [find_episode, h, Out.state]
    · rw [h] at hs
      simp only [Out.state] at hs
      subst hs
      simp [find_episode, h, Out.state]
    · rw [h] at hs
      simp only [Out.state] at hs
      subst hs
      simp [find_episode, h, Out.state]
  exact ⟨hfe, hgp t, by rw [hgp t]⟩

/-- C9: `append` with `overwrite = true` on a media identity holding a
persisted root clears the namespace before frame extraction runs; when
extraction then fails, `append` returns that error with every previously
persisted record — root, branches, leaves — already deleted, and a later
`find_episode` for the identity returns `None`. -/
theorem overwrite_clears_on_failed_extraction
    (digest : List Nat → List Nat)
    (update_all : List (List Nat × List Nat) → SledTree →
      Except XmtError (List Nat) × SledTree)
    (decoded : Except FfmpegError (List (List Nat)))
    (t : SledTree) (r : List Nat) (e : ComposerError)
    (hfail : t.fail = none) (hroot : assocGet t.data rootKey = some r)
    (hlen : r.length = 32) (hext : dump_frames digest decoded = .error e) :
    append digest update_all decoded true t = .err e ⟨[], none⟩
    ∧ (SledTree.mk [] none).data = []
    ∧ find_episode ⟨[], none⟩ = .ok none ⟨[], none⟩ := by
  refine ⟨?_, rfl, rfl⟩
  simp [append, new_empty_tree, read_root, sledGet, clear, sledClear,
    hfail, hroot, hlen, hext]

/-- Witness for C9: a store holding the zero root, overwritten by a media
file that decodes to zero frames. -/
theorem overwrite_clears_on_failed_extraction_w :
    append constDigest constUpdate (Except.ok []) true ⟨[(rootKey, zeroRoot)], none⟩
        = .err (.media .streamNotFound) ⟨[], none⟩
    ∧ (SledTree.mk [] none).data = []
    ∧ find_episode ⟨[], none⟩ = .ok none ⟨[], none⟩ :=
  overwrite_clears_on_failed_extraction constDigest constUpdate (Except.ok [])
    ⟨[(rootKey, zeroRoot)], none⟩ zeroRoot (.media .streamNotFound)
    rfl (by decide) (by decide) rfl

end Morphism
